import Mathlib

/-!
Shallow embedding of the voter-api in-memory store (Go package db).

The Go store is a struct VoterList holding a map from int voter ids to
Voter values, with CRUD operations on voters and nested CRUD on each
voter's VoteHistory slice.  We embed:

* the Go map as an association list with unique keys (every state built
  through the API keeps keys unique and equal to the stored VoterId);
* time.Time as an integer timestamp (the code never inspects dates);
* a Go function returning error as a function returning an
  Option String (none = nil error) paired with the possibly updated
  receiver state;
* a Go nil slice versus a non-nil slice, where observable, as
  Option (List _) with none standing for the nil slice.

The store has value semantics here.  Go slice aliasing between the map
entry and a fetched copy is observable only on the UpdateVoter failure
path inside the poll operations, which is unreachable from states built
through this API (the map key always equals the stored VoterId there).
-/

namespace DB

/-- VoterHistory: a single poll-participation record (Go struct VoterHistory). -/
structure VoterHistory where
  PollId : Int
  VoteId : Int
  VoteDate : Int
  deriving DecidableEq, Repr

/-- Voter: a voter with an ordered poll history (Go struct Voter). -/
structure Voter where
  VoterId : Int
  Name : String
  Email : String
  VoteHistory : List VoterHistory
  deriving DecidableEq, Repr

/-- VoterList: the store, a map of VoterIds to Voter values (Go struct VoterList),
embedded as an association list. -/
structure VoterList where
  Voters : List (Int × Voter)
  deriving DecidableEq, Repr

/-- Go map read m[id]: first binding for the key (keys are unique in every
state built through the API, so first binding is the binding). -/
def findVoter : List (Int × Voter) → Int → Option Voter
  | [], _ => none
  | p :: rest, id => if p.1 = id then some p.2 else findVoter rest id

/-- Go map write m[id] = v on a present key: replace the bound value. -/
def setVoter : List (Int × Voter) → Int → Voter → List (Int × Voter)
  | [], _, _ => []
  | p :: rest, id, v => (if p.1 = id then (p.1, v) else p) :: setVoter rest id v

/-- Go built-in delete(m, id): drop the binding for the key, no-op if absent. -/
def removeVoter : List (Int × Voter) → Int → List (Int × Voter)
  | [], _ => []
  | p :: rest, id => if p.1 = id then removeVoter rest id else p :: removeVoter rest id

/-- The Go zero value Voter\x7b\x7d, returned by GetVoter together with an error. -/
def zeroVoter : Voter :=
  { VoterId := 0, Name := "", Email := "", VoteHistory := [] }

/-- NewVoterList: constructor, returns an empty store and a nil error. -/
def NewVoterList : VoterList × Option String :=
  (⟨[]⟩, none)

/-- GetVoter: returns the Voter matching id, or the zero Voter with an error
if absent.  The Go body only reads the receiver. -/
def VoterList.GetVoter (t : VoterList) (id : Int) : Voter × Option String :=
  match findVoter t.Voters id with
  | some item => (item, none)
  | none => (zeroVoter, some "voter does not exist")

/-- AddVoter: error if the key voter.VoterId is already present, otherwise
insert the voter under that key. -/
def VoterList.AddVoter (t : VoterList) (voter : Voter) : Option String × VoterList :=
  match findVoter t.Voters voter.VoterId with
  | some _ => (some "item already exists", t)
  | none => (none, ⟨t.Voters ++ [(voter.VoterId, voter)]⟩)

/-- DeleteVoter: unconditionally delete(m, id) and return a nil error
(the existence check in the comments is not implemented). -/
def VoterList.DeleteVoter (t : VoterList) (id : Int) : Option String × VoterList :=
  (none, ⟨removeVoter t.Voters id⟩)

/-- DeleteAll: reset the map to empty. -/
def VoterList.DeleteAll (t : VoterList) : Option String × VoterList :=
  (none, ⟨[]⟩)

/-- UpdateVoter: error if the key voter.VoterId is absent, otherwise replace
the whole stored Voter under that key. -/
def VoterList.UpdateVoter (t : VoterList) (voter : Voter) : Option String × VoterList :=
  match findVoter t.Voters voter.VoterId with
  | none => (some "item does not exist", t)
  | some _ => (none, ⟨setVoter t.Voters voter.VoterId voter⟩)

/-- Go append of one element to a possibly nil slice: appending to the nil
slice allocates a non-nil slice. -/
def goAppend (s : Option (List Voter)) (x : Voter) : Option (List Voter) :=
  match s with
  | none => some [x]
  | some l => some (l ++ [x])

/-- The elements of a possibly nil Go slice (nil ranges as empty). -/
def sliceElems (s : Option (List Voter)) : List Voter :=
  match s with
  | none => []
  | some l => l

/-- GetAllVoters: starts from the nil slice (var voterList []Voter) and
appends every map value; returns the slice, which stays nil when the store
is empty, and a nil error. -/
def VoterList.GetAllVoters (t : VoterList) : Option (List Voter) × Option String :=
  (t.Voters.foldl (fun acc p => goAppend acc p.2) none, none)

/-- GetVoterPolls: the named voter's history, or the voter-lookup error. -/
def VoterList.GetVoterPolls (t : VoterList) (voterID : Int) :
    List VoterHistory × Option String :=
  match t.GetVoter voterID with
  | (_, some e) => ([], some e)
  | (voter, none) => (voter.VoteHistory, none)

/-- GetVoterPoll: linear scan of the voter's history for the first record
with the given PollId. -/
def VoterList.GetVoterPoll (t : VoterList) (voterID pollID : Int) :
    VoterHistory × Option String :=
  match t.GetVoter voterID with
  | (_, some e) => (⟨0, 0, 0⟩, some e)
  | (voter, none) =>
    match voter.VoteHistory.find? (fun h => h.PollId = pollID) with
    | some h => (h, none)
    | none => (⟨0, 0, 0⟩, some "poll not found for this voter")

/-- AddVoterPoll: fetch the voter, append a record whose VoteId is the
history length plus one, write the voter back.  No duplicate-PollId check. -/
def VoterList.AddVoterPoll (t : VoterList) (voterID pollID voteDate : Int) :
    Option String × VoterList :=
  match t.GetVoter voterID with
  | (_, some e) => (some e, t)
  | (voter, none) =>
      t.UpdateVoter { voter with VoteHistory := voter.VoteHistory ++
        [{ PollId := pollID, VoteId := (voter.VoteHistory.length : Int) + 1,
           VoteDate := voteDate }] }

/-- The indexed loop of UpdateVoterPoll: replace the VoteDate of the first
record matching the PollId, none if no record matches. -/
def updateFirstPoll : List VoterHistory → Int → Int → Option (List VoterHistory)
  | [], _, _ => none
  | h :: rest, pollID, d =>
    if h.PollId = pollID then some ({ h with VoteDate := d } :: rest)
    else
      match updateFirstPoll rest pollID d with
      | some rest2 => some (h :: rest2)
      | none => none

/-- The indexed loop of DeleteVoterPoll: drop the first record matching the
PollId, none if no record matches. -/
def deleteFirstPoll : List VoterHistory → Int → Option (List VoterHistory)
  | [], _ => none
  | h :: rest, pollID =>
    if h.PollId = pollID then some rest
    else
      match deleteFirstPoll rest pollID with
      | some rest2 => some (h :: rest2)
      | none => none

/-- UpdateVoterPoll: fetch the voter, set the VoteDate of the first record
matching pollID, write the voter back; error if voter or record absent. -/
def VoterList.UpdateVoterPoll (t : VoterList) (voterID pollID newVoteDate : Int) :
    Option String × VoterList :=
  match t.GetVoter voterID with
  | (_, some e) => (some e, t)
  | (voter, none) =>
    match updateFirstPoll voter.VoteHistory pollID newVoteDate with
    | some newHist => t.UpdateVoter { voter with VoteHistory := newHist }
    | none => (some "poll not found for this voter", t)

/-- DeleteVoterPoll: fetch the voter, remove the first record matching
pollID, write the voter back; error if voter or record absent. -/
def VoterList.DeleteVoterPoll (t : VoterList) (voterID pollID : Int) :
    Option String × VoterList :=
  match t.GetVoter voterID with
  | (_, some e) => (some e, t)
  | (voter, none) =>
    match deleteFirstPoll voter.VoteHistory pollID with
    | some newHist => t.UpdateVoter { voter with VoteHistory := newHist }
    | none => (some "poll not found for this voter", t)

/-- Spec invariant on one voter: no two records of the history share a PollId. -/
def pollIdsNodup (v : Voter) : Prop :=
  (v.VoteHistory.map VoterHistory.PollId).Nodup

/-- Spec invariant on the store: every stored voter satisfies pollIdsNodup. -/
def StoreInv (t : VoterList) : Prop :=
  ∀ p ∈ t.Voters, pollIdsNodup p.2

instance (v : Voter) : Decidable (pollIdsNodup v) := by
  unfold pollIdsNodup; infer_instance

instance (t : VoterList) : Decidable (StoreInv t) := by
  unfold StoreInv; infer_instance

/-- A concrete store used to instantiate the theorems. -/
def janeVoter : Voter :=
  { VoterId := 1, Name := "Jane", Email := "jane", VoteHistory := [⟨10, 1, 100⟩, ⟨20, 2, 200⟩] }

/-- A second concrete voter, with an empty history. -/
def bobVoter : Voter :=
  { VoterId := 2, Name := "Bob", Email := "bob", VoteHistory := [] }

/-- A concrete two-voter store used to instantiate the theorems. -/
def sampleStore : VoterList :=
  ⟨[(1, janeVoter), (2, bobVoter)]⟩

/-! ### Lemmas about the map primitives -/

theorem findVoter_mem {l : List (Int × Voter)} {k : Int} {v : Voter}
    (h : findVoter l k = some v) : (k, v) ∈ l := by
  induction l with
  | nil => simp [findVoter] at h
  | cons p rest ih =>
    by_cases hp : p.1 = k
    · simp only [findVoter, hp, if_pos] at h
      have : p = (k, v) := by cases p with | mk a b => simp_all
      simp [this]
    · simp only [findVoter, hp, if_neg, if_false] at h
      exact List.mem_cons_of_mem _ (ih h)

theorem findVoter_append_self {l : List (Int × Voter)} {k : Int} (v : Voter)
    (h : findVoter l k = none) : findVoter (l ++ [(k, v)]) k = some v := by
  induction l with
  | nil => simp [findVoter]
  | cons p rest ih =>
    by_cases hp : p.1 = k
    · simp [findVoter, hp] at h
    · simp only [List.cons_append, findVoter, hp, if_neg, if_false] at h ⊢
      exact ih h

theorem findVoter_append_other {l : List (Int × Voter)} {k j : Int} (v : Voter)
    (hkj : k ≠ j) : findVoter (l ++ [(j, v)]) k = findVoter l k := by
  induction l with
  | nil => simp [findVoter, Ne.symm hkj]
  | cons p rest ih =>
    by_cases hp : p.1 = k
    · simp [findVoter, hp]
    · simp only [List.cons_append, findVoter, hp, if_neg, if_false]
      exact ih

theorem findVoter_setVoter_self {l : List (Int × Voter)} {k : Int} {w : Voter} (v : Voter)
    (h : findVoter l k = some w) : findVoter (setVoter l k v) k = some v := by
  induction l with
  | nil => simp [findVoter] at h
  | cons p rest ih =>
    by_cases hp : p.1 = k
    · simp [setVoter, findVoter, hp]
    · simp only [setVoter, hp, if_neg, if_false, findVoter] at h ⊢
      exact ih h

theorem findVoter_setVoter_other {l : List (Int × Voter)} {k j : Int} (v : Voter)
    (hkj : k ≠ j) : findVoter (setVoter l j v) k = findVoter l k := by
  induction l with
  | nil => simp [setVoter]
  | cons p rest ih =>
    by_cases hp : p.1 = j
    · have hjk : ¬ (j = k) := fun hc => hkj hc.symm
      simp only [setVoter, hp, if_pos, findVoter, hjk, if_false]
      exact ih
    · simp only [setVoter, hp, if_neg, if_false, findVoter]
      by_cases hk : p.1 = k
      · simp [hk]
      · simp only [hk, if_neg, if_false]
        exact ih

theorem findVoter_removeVoter_self (l : List (Int × Voter)) (k : Int) :
    findVoter (removeVoter l k) k = none := by
  induction l with
  | nil => rfl
  | cons p rest ih =>
    by_cases hp : p.1 = k
    · simp only [removeVoter, hp, if_pos]
      exact ih
    · simp only [removeVoter, hp, if_neg, if_false, findVoter]
      exact ih

theorem findVoter_removeVoter_other {l : List (Int × Voter)} {k j : Int}
    (hkj : k ≠ j) : findVoter (removeVoter l j) k = findVoter l k := by
  induction l with
  | nil => rfl
  | cons p rest ih =>
    by_cases hp : p.1 = j
    · have hjk : ¬ (j = k) := fun hc => hkj hc.symm
      simp only [removeVoter, hp, if_pos, findVoter, hjk, if_false]
      exact ih
    · simp only [removeVoter, hp, if_neg, if_false, findVoter]
      by_cases hk : p.1 = k
      · simp [hk]
      · simp only [hk, if_neg, if_false]
        exact ih

theorem removeVoter_absent {l : List (Int × Voter)} {k : Int}
    (h : findVoter l k = none) : removeVoter l k = l := by
  induction l with
  | nil => rfl
  | cons p rest ih =>
    by_cases hp : p.1 = k
    · simp [findVoter, hp] at h
    · simp only [findVoter, hp, if_neg, if_false] at h
      simp only [removeVoter, hp, if_neg, if_false, ih h]

theorem removeVoter_subset {l : List (Int × Voter)} {k : Int} {p : Int × Voter}
    (h : p ∈ removeVoter l k) : p ∈ l := by
  induction l with
  | nil => simp [removeVoter] at h
  | cons q rest ih =>
    by_cases hq : q.1 = k
    · simp only [removeVoter, hq, if_pos] at h
      exact List.mem_cons_of_mem _ (ih h)
    · simp only [removeVoter, hq, if_neg, if_false] at h
      rcases List.mem_cons.1 h with h1 | h2
      · simp [h1]
      · exact List.mem_cons_of_mem _ (ih h2)

/-! ### Lemmas about the poll-history loops -/

theorem updateFirstPoll_split (pre : List VoterHistory) (h : VoterHistory)
    (post : List VoterHistory) {pollID : Int} (d : Int)
    (hpre : ∀ x ∈ pre, x.PollId ≠ pollID) (hh : h.PollId = pollID) :
    updateFirstPoll (pre ++ h :: post) pollID d =
      some (pre ++ { h with VoteDate := d } :: post) := by
  induction pre with
  | nil => simp [updateFirstPoll, hh]
  | cons a rest ih =>
    have ha : a.PollId ≠ pollID := hpre a (by simp)
    have hrest : ∀ x ∈ rest, x.PollId ≠ pollID := fun x hx => hpre x (by simp [hx])
    simp only [List.cons_append, updateFirstPoll, ha, if_neg, if_false, List.append_eq, ih hrest]

theorem updateFirstPoll_none {l : List VoterHistory} {pollID : Int} (d : Int)
    (hl : ∀ x ∈ l, x.PollId ≠ pollID) : updateFirstPoll l pollID d = none := by
  induction l with
  | nil => rfl
  | cons a rest ih =>
    have ha : a.PollId ≠ pollID := hl a (by simp)
    have hrest : ∀ x ∈ rest, x.PollId ≠ pollID := fun x hx => hl x (by simp [hx])
    simp only [updateFirstPoll, ha, if_neg, if_false, ih hrest]

theorem updateFirstPoll_map_pollId {l l2 : List VoterHistory} {pollID d : Int}
    (h : updateFirstPoll l pollID d = some l2) :
    l2.map VoterHistory.PollId = l.map VoterHistory.PollId := by
  induction l generalizing l2 with
  | nil => simp [updateFirstPoll] at h
  | cons a rest ih =>
    rw [updateFirstPoll] at h
    split at h
    · cases h
      simp
    · split at h
      · next rest2 heq =>
        cases h
        simp [ih heq]
      · cases h

theorem deleteFirstPoll_split (pre : List VoterHistory) (h : VoterHistory)
    (post : List VoterHistory) {pollID : Int}
    (hpre : ∀ x ∈ pre, x.PollId ≠ pollID) (hh : h.PollId = pollID) :
    deleteFirstPoll (pre ++ h :: post) pollID = some (pre ++ post) := by
  induction pre with
  | nil => simp [deleteFirstPoll, hh]
  | cons a rest ih =>
    have ha : a.PollId ≠ pollID := hpre a (by simp)
    have hrest : ∀ x ∈ rest, x.PollId ≠ pollID := fun x hx => hpre x (by simp [hx])
    simp only [List.cons_append, deleteFirstPoll, ha, if_neg, if_false, List.append_eq, ih hrest]

theorem deleteFirstPoll_none {l : List VoterHistory} {pollID : Int}
    (hl : ∀ x ∈ l, x.PollId ≠ pollID) : deleteFirstPoll l pollID = none := by
  induction l with
  | nil => rfl
  | cons a rest ih =>
    have ha : a.PollId ≠ pollID := hl a (by simp)
    have hrest : ∀ x ∈ rest, x.PollId ≠ pollID := fun x hx => hl x (by simp [hx])
    simp only [deleteFirstPoll, ha, if_neg, if_false, ih hrest]

theorem deleteFirstPoll_sublist {l l2 : List VoterHistory} {pollID : Int}
    (h : deleteFirstPoll l pollID = some l2) : l2.Sublist l := by
  induction l generalizing l2 with
  | nil => simp [deleteFirstPoll] at h
  | cons a rest ih =>
    rw [deleteFirstPoll] at h
    split at h
    · cases h
      exact List.sublist_cons_self _ _
    · split at h
      · next rest2 heq =>
        cases h
        exact List.Sublist.cons₂ a (ih heq)
      · cases h

/-! ### Lemmas about GetAllVoters and the invariant -/

theorem foldl_goAppend (l : List (Int × Voter)) (acc : Option (List Voter)) :
    sliceElems (l.foldl (fun a p => goAppend a p.2) acc) =
      sliceElems acc ++ l.map Prod.snd := by
  induction l generalizing acc with
  | nil => simp
  | cons p rest ih =>
    rw [List.foldl_cons, ih]
    cases acc <;> simp [goAppend, sliceElems]

theorem storeInv_setVoter {l : List (Int × Voter)} (hl : ∀ p ∈ l, pollIdsNodup p.2)
    {id : Int} {v : Voter} (hv : pollIdsNodup v) :
    ∀ p ∈ setVoter l id v, pollIdsNodup p.2 := by
  induction l with
  | nil => simp [setVoter]
  | cons q rest ih =>
    intro p hp
    rw [setVoter] at hp
    rcases List.mem_cons.1 hp with h1 | h2
    · by_cases hq : q.1 = id
      · rw [h1, if_pos hq]
        exact hv
      · rw [h1, if_neg hq]
        exact hl q (by simp)
    · exact ih (fun r hr => hl r (by simp [hr])) p h2

theorem storeInv_of_updateVoter {t : VoterList} (hinv : StoreInv t) {v : Voter}
    (hv : pollIdsNodup v) : StoreInv (t.UpdateVoter v).2 := by
  rw [VoterList.UpdateVoter]
  split
  · exact hinv
  · exact storeInv_setVoter hinv hv

/-! ### Claim theorems -/

/-- C5: for every store and voter v, if v.VoterId is already a key then
AddVoter v fails with the already-exists error and the entire store, the
existing record included, is unchanged; if the key is absent, AddVoter v
succeeds and inserts v under v.VoterId. -/
theorem AddVoter_spec (t : VoterList) (v : Voter) :
    (∀ w, findVoter t.Voters v.VoterId = some w →
      t.AddVoter v = (some "item already exists", t)) ∧
    (findVoter t.Voters v.VoterId = none →
      (t.AddVoter v).1 = none ∧
      (t.AddVoter v).2.Voters = t.Voters ++ [(v.VoterId, v)] ∧
      findVoter (t.AddVoter v).2.Voters v.VoterId = some v) := by
  constructor
  · intro w hw
    simp [VoterList.AddVoter, hw]
  · intro h
    refine ⟨?_, ?_, ?_⟩ <;> simp [VoterList.AddVoter, h, findVoter_append_self v h]

/-- Witness for C5 at a concrete store and a fresh voter. -/
theorem AddVoter_spec_witness :
    (sampleStore.AddVoter ⟨3, "Cara", "cara", []⟩).1 = none ∧
    (sampleStore.AddVoter ⟨3, "Cara", "cara", []⟩).2.Voters =
      sampleStore.Voters ++ [(3, ⟨3, "Cara", "cara", []⟩)] ∧
    findVoter (sampleStore.AddVoter ⟨3, "Cara", "cara", []⟩).2.Voters 3 =
      some ⟨3, "Cara", "cara", []⟩ :=
  (AddVoter_spec sampleStore ⟨3, "Cara", "cara", []⟩).2 (by decide)

/-- C6: for every store and voter v with v.VoterId not yet a key, AddVoter v
followed immediately by GetVoter v.VoterId returns v with a nil error. -/
theorem AddVoter_GetVoter_roundtrip (t : VoterList) (v : Voter)
    (h : findVoter t.Voters v.VoterId = none) :
    (t.AddVoter v).2.GetVoter v.VoterId = (v, none) := by
  simp [VoterList.AddVoter, h, VoterList.GetVoter, findVoter_append_self v h]

/-- Witness for C6 at a concrete store and a fresh voter. -/
theorem AddVoter_GetVoter_roundtrip_witness :
    (sampleStore.AddVoter ⟨3, "Cara", "cara", []⟩).2.GetVoter 3 =
      (⟨3, "Cara", "cara", []⟩, none) :=
  AddVoter_GetVoter_roundtrip sampleStore ⟨3, "Cara", "cara", []⟩ (by decide)

/-- C7: GetVoter fails with the not-found error on an absent id and returns
the stored voter with a nil error on a present id; it takes the store by
value and returns no updated store, so it has no side effects. -/
theorem GetVoter_spec (t : VoterList) (id : Int) :
    (findVoter t.Voters id = none →
      t.GetVoter id = (zeroVoter, some "voter does not exist")) ∧
    (∀ v, findVoter t.Voters id = some v → t.GetVoter id = (v, none)) := by
  constructor
  · intro h
    simp [VoterList.GetVoter, h]
  · intro v hv
    simp [VoterList.GetVoter, hv]

/-- Witness for C7 at a concrete store, one absent and one present id. -/
theorem GetVoter_spec_witness :
    sampleStore.GetVoter 3 = (zeroVoter, some "voter does not exist") ∧
    sampleStore.GetVoter 1 = (janeVoter, none) :=
  ⟨(GetVoter_spec sampleStore 3).1 (by decide),
   (GetVoter_spec sampleStore 1).2 janeVoter (by decide)⟩

/-- C9: DeleteVoter always succeeds; the id is absent afterwards, every other
binding is unchanged, and deleting an absent id leaves the store exactly as
it was (idempotent deletion). -/
theorem DeleteVoter_spec (t : VoterList) (id : Int) :
    (t.DeleteVoter id).1 = none ∧
    findVoter (t.DeleteVoter id).2.Voters id = none ∧
    (∀ k, k ≠ id → findVoter (t.DeleteVoter id).2.Voters k = findVoter t.Voters k) ∧
    (findVoter t.Voters id = none → (t.DeleteVoter id).2 = t) := by
  refine ⟨rfl, findVoter_removeVoter_self _ _,
    fun k hk => findVoter_removeVoter_other hk, fun h => ?_⟩
  simp [VoterList.DeleteVoter, removeVoter_absent h]

/-- Witness for C9 at a concrete store and an absent id. -/
theorem DeleteVoter_spec_witness :
    (sampleStore.DeleteVoter 3).1 = none ∧
    findVoter (sampleStore.DeleteVoter 3).2.Voters 3 = none ∧
    findVoter (sampleStore.DeleteVoter 3).2.Voters 1 = findVoter sampleStore.Voters 1 ∧
    (sampleStore.DeleteVoter 3).2 = sampleStore := by
  have h := DeleteVoter_spec sampleStore 3
  exact ⟨h.1, h.2.1, h.2.2.1 1 (by decide), h.2.2.2 (by decide)⟩

/-- C2: for a present voter (stored, as every state built through this API
stores it, under its own VoterId), AddVoterPoll appends exactly one record at
the end of the history, carrying the given PollId and VoteDate and a VoteId
of the pre-append history length plus one; for an absent voter it fails with
the not-found error and returns the store unchanged. -/
theorem AddVoterPoll_spec (t : VoterList) (voterID pollID d : Int) :
    (findVoter t.Voters voterID = none →
      t.AddVoterPoll voterID pollID d = (some "voter does not exist", t)) ∧
    (∀ v, findVoter t.Voters voterID = some v → v.VoterId = voterID →
      (t.AddVoterPoll voterID pollID d).1 = none ∧
      findVoter (t.AddVoterPoll voterID pollID d).2.Voters voterID =
        some { v with VoteHistory := v.VoteHistory ++
          [{ PollId := pollID, VoteId := (v.VoteHistory.length : Int) + 1,
             VoteDate := d }] }) := by
  constructor
  · intro hnone
    simp [VoterList.AddVoterPoll, VoterList.GetVoter, hnone]
  · intro v hv hid
    have hg : t.GetVoter voterID = (v, none) := by
      simp [VoterList.GetVoter, hv]
    set w : Voter := { v with VoteHistory := v.VoteHistory ++
      [{ PollId := pollID, VoteId := (v.VoteHistory.length : Int) + 1,
         VoteDate := d }] } with hwdef
    have hstep : t.AddVoterPoll voterID pollID d = t.UpdateVoter w := by
      simp only [VoterList.AddVoterPoll, hg]
    have hwid : w.VoterId = voterID := hid
    have hupd : t.UpdateVoter w = (none, ⟨setVoter t.Voters voterID w⟩) := by
      simp only [VoterList.UpdateVoter, hwid, hid, hv]
    rw [hstep, hupd]
    exact ⟨rfl, findVoter_setVoter_self w hv⟩

/-- Witness for C2 at a concrete store. -/
theorem AddVoterPoll_spec_witness :
    (sampleStore.AddVoterPoll 1 30 300).1 = none ∧
    findVoter (sampleStore.AddVoterPoll 1 30 300).2.Voters 1 =
      some { janeVoter with VoteHistory := janeVoter.VoteHistory ++
        [{ PollId := 30, VoteId := (janeVoter.VoteHistory.length : Int) + 1,
           VoteDate := 300 }] } :=
  (AddVoterPoll_spec sampleStore 1 30 300).2 janeVoter (by decide) (by decide)

/-- C3: for a present voter whose history splits as pre ++ h :: post with h
the first record matching pollID, UpdateVoterPoll changes only the VoteDate
of h, keeping its PollId, VoteId and position and every other record; it
fails with the not-found error and leaves the store unchanged when the voter
is absent or no record matches. -/
theorem UpdateVoterPoll_spec (t : VoterList) (voterID pollID d : Int) :
    (findVoter t.Voters voterID = none →
      t.UpdateVoterPoll voterID pollID d = (some "voter does not exist", t)) ∧
    (∀ v, findVoter t.Voters voterID = some v →
      ((∀ x ∈ v.VoteHistory, x.PollId ≠ pollID) →
        t.UpdateVoterPoll voterID pollID d = (some "poll not found for this voter", t)) ∧
      (v.VoterId = voterID →
        ∀ pre h post, v.VoteHistory = pre ++ h :: post →
          (∀ x ∈ pre, x.PollId ≠ pollID) → h.PollId = pollID →
          (t.UpdateVoterPoll voterID pollID d).1 = none ∧
          findVoter (t.UpdateVoterPoll voterID pollID d).2.Voters voterID =
            some { v with VoteHistory := pre ++ { h with VoteDate := d } :: post })) := by
  constructor
  · intro hnone
    simp [VoterList.UpdateVoterPoll, VoterList.GetVoter, hnone]
  · intro v hv
    have hg : t.GetVoter voterID = (v, none) := by
      simp [VoterList.GetVoter, hv]
    constructor
    · intro hnom
      simp only [VoterList.UpdateVoterPoll, hg, updateFirstPoll_none d hnom]
    · intro hid pre h post hsplit hpre hh
      have hupf : updateFirstPoll v.VoteHistory pollID d =
          some (pre ++ { h with VoteDate := d } :: post) := by
        rw [hsplit]
        exact updateFirstPoll_split pre h post d hpre hh
      set w : Voter := { v with VoteHistory := pre ++ { h with VoteDate := d } :: post }
        with hwdef
      have hstep : t.UpdateVoterPoll voterID pollID d = t.UpdateVoter w := by
        simp only [VoterList.UpdateVoterPoll, hg, hupf]
      have hwid : w.VoterId = voterID := hid
      have hupd : t.UpdateVoter w = (none, ⟨setVoter t.Voters voterID w⟩) := by
        simp only [VoterList.UpdateVoter, hwid, hid, hv]
      rw [hstep, hupd]
      exact ⟨rfl, findVoter_setVoter_self w hv⟩

/-- Witness for C3 at a concrete store: the second record of the history is
the first match. -/
theorem UpdateVoterPoll_spec_witness :
    (sampleStore.UpdateVoterPoll 1 20 999).1 = none ∧
    findVoter (sampleStore.UpdateVoterPoll 1 20 999).2.Voters 1 =
      some { janeVoter with VoteHistory :=
        [⟨10, 1, 100⟩] ++ { (⟨20, 2, 200⟩ : VoterHistory) with VoteDate := 999 } :: [] } :=
  ((UpdateVoterPoll_spec sampleStore 1 20 999).2 janeVoter (by decide)).2 (by decide)
    [⟨10, 1, 100⟩] ⟨20, 2, 200⟩ [] (by decide) (by decide) (by decide)

/-- C4: for a present voter whose history splits as pre ++ h :: post with h
the first record matching pollID, DeleteVoterPoll removes exactly h, leaving
pre ++ post in order; it fails with the not-found error and leaves the store
unchanged when the voter is absent or no record matches. -/
theorem DeleteVoterPoll_spec (t : VoterList) (voterID pollID : Int) :
    (findVoter t.Voters voterID = none →
      t.DeleteVoterPoll voterID pollID = (some "voter does not exist", t)) ∧
    (∀ v, findVoter t.Voters voterID = some v →
      ((∀ x ∈ v.VoteHistory, x.PollId ≠ pollID) →
        t.DeleteVoterPoll voterID pollID = (some "poll not found for this voter", t)) ∧
      (v.VoterId = voterID →
        ∀ pre h post, v.VoteHistory = pre ++ h :: post →
          (∀ x ∈ pre, x.PollId ≠ pollID) → h.PollId = pollID →
          (t.DeleteVoterPoll voterID pollID).1 = none ∧
          findVoter (t.DeleteVoterPoll voterID pollID).2.Voters voterID =
            some { v with VoteHistory := pre ++ post })) := by
  constructor
  · intro hnone
    simp [VoterList.DeleteVoterPoll, VoterList.GetVoter, hnone]
  · intro v hv
    have hg : t.GetVoter voterID = (v, none) := by
      simp [VoterList.GetVoter, hv]
    constructor
    · intro hnom
      simp only [VoterList.DeleteVoterPoll, hg, deleteFirstPoll_none hnom]
    · intro hid pre h post hsplit hpre hh
      have hdel : deleteFirstPoll v.VoteHistory pollID = some (pre ++ post) := by
        rw [hsplit]
        exact deleteFirstPoll_split pre h post hpre hh
      set w : Voter := { v with VoteHistory := pre ++ post } with hwdef
      have hstep : t.DeleteVoterPoll voterID pollID = t.UpdateVoter w := by
        simp only [VoterList.DeleteVoterPoll, hg, hdel]
      have hwid : w.VoterId = voterID := hid
      have hupd : t.UpdateVoter w = (none, ⟨setVoter t.Voters voterID w⟩) := by
        simp only [VoterList.UpdateVoter, hwid, hid, hv]
      rw [hstep, hupd]
      exact ⟨rfl, findVoter_setVoter_self w hv⟩

/-- Witness for C4 at a concrete store: the first record of the history is
removed, the second survives in order. -/
theorem DeleteVoterPoll_spec_witness :
    (sampleStore.DeleteVoterPoll 1 10).1 = none ∧
    findVoter (sampleStore.DeleteVoterPoll 1 10).2.Voters 1 =
      some { janeVoter with VoteHistory := ([] : List VoterHistory) ++ [⟨20, 2, 200⟩] } :=
  ((DeleteVoterPoll_spec sampleStore 1 10).2 janeVoter (by decide)).2 (by decide)
    [] ⟨10, 1, 100⟩ [⟨20, 2, 200⟩] (by decide) (by decide) (by decide)

/-- Stores built through this API keep every voter under its own VoterId. -/
def KeyConsistent (t : VoterList) : Prop :=
  ∀ p ∈ t.Voters, p.2.VoterId = p.1

instance (t : VoterList) : Decidable (KeyConsistent t) := by
  unfold KeyConsistent; infer_instance

theorem keyConsistent_find {t : VoterList} (h : KeyConsistent t) {k : Int} {v : Voter}
    (hv : findVoter t.Voters k = some v) : v.VoterId = k :=
  h (k, v) (findVoter_mem hv)

/-- Writing a voter back through UpdateVoter never changes the binding of a
different key, whether the write succeeds or fails. -/
theorem findVoter_updateVoter_other (t : VoterList) (w : Voter) {k : Int}
    (hk : k ≠ w.VoterId) :
    findVoter (t.UpdateVoter w).2.Voters k = findVoter t.Voters k := by
  rw [VoterList.UpdateVoter]
  split
  · rfl
  · exact findVoter_setVoter_other w hk

/-- C10: each poll sub-operation touches at most the binding of the targeted
voter: any other key's binding is exactly unchanged, whether the operation
succeeds or fails (the KeyConsistent hypothesis states the reachable-state
fact that each voter is stored under its own VoterId). -/
theorem pollOps_frame (t : VoterList) (voterID pollID d k : Int) (hk : k ≠ voterID)
    (hcons : KeyConsistent t) :
    findVoter (t.AddVoterPoll voterID pollID d).2.Voters k = findVoter t.Voters k ∧
    findVoter (t.UpdateVoterPoll voterID pollID d).2.Voters k = findVoter t.Voters k ∧
    findVoter (t.DeleteVoterPoll voterID pollID).2.Voters k = findVoter t.Voters k := by
  cases hres : findVoter t.Voters voterID with
  | none =>
    refine ⟨?_, ?_, ?_⟩ <;>
      simp [VoterList.AddVoterPoll, VoterList.UpdateVoterPoll, VoterList.DeleteVoterPoll,
        VoterList.GetVoter, hres]
  | some v =>
    have hid : v.VoterId = voterID := keyConsistent_find hcons hres
    have hg : t.GetVoter voterID = (v, none) := by
      simp [VoterList.GetVoter, hres]
    have hkv : ∀ w : Voter, w.VoterId = v.VoterId → k ≠ w.VoterId :=
      fun w hw hc => hk ((hc.trans hw).trans hid)
    refine ⟨?_, ?_, ?_⟩
    · simp only [VoterList.AddVoterPoll, hg]
      exact findVoter_updateVoter_other _ _ (hkv _ rfl)
    · cases hupf : updateFirstPoll v.VoteHistory pollID d with
      | none =>
        simp [VoterList.UpdateVoterPoll, hg, hupf]
      | some newHist =>
        simp only [VoterList.UpdateVoterPoll, hg, hupf]
        exact findVoter_updateVoter_other _ _ (hkv _ rfl)
    · cases hdel : deleteFirstPoll v.VoteHistory pollID with
      | none =>
        simp [VoterList.DeleteVoterPoll, hg, hdel]
      | some newHist =>
        simp only [VoterList.DeleteVoterPoll, hg, hdel]
        exact findVoter_updateVoter_other _ _ (hkv _ rfl)

/-- Witness for C10 at a concrete store: the binding of voter 2 survives all
three poll operations on voter 1 unchanged. -/
theorem pollOps_frame_witness :
    findVoter (sampleStore.AddVoterPoll 1 20 999).2.Voters 2 =
      findVoter sampleStore.Voters 2 ∧
    findVoter (sampleStore.UpdateVoterPoll 1 20 999).2.Voters 2 =
      findVoter sampleStore.Voters 2 ∧
    findVoter (sampleStore.DeleteVoterPoll 1 20).2.Voters 2 =
      findVoter sampleStore.Voters 2 :=
  pollOps_frame sampleStore 1 20 999 2 (by decide) (by decide)

/-- C1 counterexample: a store reachable from the empty store through
AddVoter and two AddVoterPoll calls with the same pollId ends with a voter
whose history has two records sharing PollId 1, because AddVoterPoll makes
no duplicate-PollId check. -/
theorem pollId_unique_cex :
    findVoter ((((NewVoterList.1.AddVoter ⟨1, "Jane", "jane", []⟩).2.AddVoterPoll
        1 1 10).2.AddVoterPoll 1 1 20).2).Voters 1 =
      some ⟨1, "Jane", "jane", [⟨1, 1, 10⟩, ⟨1, 2, 20⟩]⟩ ∧
    ¬ pollIdsNodup ⟨1, "Jane", "jane", [⟨1, 1, 10⟩, ⟨1, 2, 20⟩]⟩ := by
  constructor
  · decide
  · decide

/-- C1 amended: per-voter PollId uniqueness is preserved by UpdateVoterPoll,
DeleteVoterPoll, DeleteVoter and DeleteAll unconditionally, by AddVoter and
UpdateVoter when the supplied voter itself has no duplicate PollIds, and by
AddVoterPoll only when the added pollID is not already in the target voter's
history; the store itself enforces no duplicate-PollId check. -/
theorem storeInv_preservation (t : VoterList) (hinv : StoreInv t) :
    (∀ v, pollIdsNodup v → StoreInv (t.AddVoter v).2) ∧
    (∀ v, pollIdsNodup v → StoreInv (t.UpdateVoter v).2) ∧
    (∀ id, StoreInv (t.DeleteVoter id).2) ∧
    StoreInv t.DeleteAll.2 ∧
    (∀ voterID pollID d v, findVoter t.Voters voterID = some v →
      pollID ∉ v.VoteHistory.map VoterHistory.PollId →
      StoreInv (t.AddVoterPoll voterID pollID d).2) ∧
    (∀ voterID pollID d, StoreInv (t.UpdateVoterPoll voterID pollID d).2) ∧
    (∀ voterID pollID, StoreInv (t.DeleteVoterPoll voterID pollID).2) := by
  refine ⟨?_, ?_, ?_, ?_, ?_, ?_, ?_⟩
  · intro v hv
    rw [VoterList.AddVoter]
    split
    · exact hinv
    · intro p hp
      rcases List.mem_append.1 hp with h1 | h2
      · exact hinv p h1
      · have : p = (v.VoterId, v) := by simpa using h2
        rw [this]
        exact hv
  · intro v hv
    exact storeInv_of_updateVoter hinv hv
  · intro id p hp
    exact hinv p (removeVoter_subset hp)
  · intro p hp
    simp [VoterList.DeleteAll] at hp
  · intro voterID pollID d v hv hfresh
    have hg : t.GetVoter voterID = (v, none) := by
      simp [VoterList.GetVoter, hv]
    have hvnd : pollIdsNodup v := hinv (voterID, v) (findVoter_mem hv)
    simp only [VoterList.AddVoterPoll, hg]
    refine storeInv_of_updateVoter hinv ?_
    simp only [pollIdsNodup, List.map_append, List.map_cons, List.map_nil] at hvnd ⊢
    rw [List.nodup_append]
    refine ⟨hvnd, List.nodup_singleton _, ?_⟩
    intro a ha hb
    rw [List.mem_singleton] at hb
    exact hfresh (hb ▸ ha)
  · intro voterID pollID d
    cases hres : findVoter t.Voters voterID with
    | none =>
      simpa [VoterList.UpdateVoterPoll, VoterList.GetVoter, hres] using hinv
    | some v =>
      have hg : t.GetVoter voterID = (v, none) := by
        simp [VoterList.GetVoter, hres]
      have hvnd : pollIdsNodup v := hinv (voterID, v) (findVoter_mem hres)
      cases hupf : updateFirstPoll v.VoteHistory pollID d with
      | none =>
        simpa [VoterList.UpdateVoterPoll, hg, hupf] using hinv
      | some newHist =>
        simp only [VoterList.UpdateVoterPoll, hg, hupf]
        refine storeInv_of_updateVoter hinv ?_
        simp only [pollIdsNodup] at hvnd ⊢
        rw [updateFirstPoll_map_pollId hupf]
        exact hvnd
  · intro voterID pollID
    cases hres : findVoter t.Voters voterID with
    | none =>
      simpa [VoterList.DeleteVoterPoll, VoterList.GetVoter, hres] using hinv
    | some v =>
      have hg : t.GetVoter voterID = (v, none) := by
        simp [VoterList.GetVoter, hres]
      have hvnd : pollIdsNodup v := hinv (voterID, v) (findVoter_mem hres)
      cases hdel : deleteFirstPoll v.VoteHistory pollID with
      | none =>
        simpa [VoterList.DeleteVoterPoll, hg, hdel] using hinv
      | some newHist =>
        simp only [VoterList.DeleteVoterPoll, hg, hdel]
        refine storeInv_of_updateVoter hinv ?_
        simp only [pollIdsNodup] at hvnd ⊢
        exact hvnd.sublist ((deleteFirstPoll_sublist hdel).map _)

/-- Witness for C1 at a concrete store satisfying the invariant. -/
theorem storeInv_preservation_witness :
    StoreInv (sampleStore.UpdateVoterPoll 1 20 999).2 ∧
    StoreInv (sampleStore.DeleteVoterPoll 1 10).2 ∧
    StoreInv (sampleStore.AddVoterPoll 1 30 300).2 := by
  have h := storeInv_preservation sampleStore (by decide)
  exact ⟨h.2.2.2.2.2.1 1 20 999, h.2.2.2.2.2.2 1 10,
    h.2.2.2.2.1 1 30 300 janeVoter (by decide) (by decide)⟩

/-- C8 counterexample: on the empty store GetAllVoters returns the Go nil
slice, which is a null/absent value and not an empty non-nil sequence. -/
theorem getAllVoters_nil_cex :
    (VoterList.GetAllVoters ⟨[]⟩).1 = none ∧
    (none : Option (List Voter)) ≠ some [] := by
  exact ⟨rfl, by decide⟩

/-- C8 amended: GetAllVoters always succeeds and its result ranges over
exactly the stored voters in map order; on the empty store, however, the
returned slice is the nil slice (the API adapter converts it to an empty
non-nil slice before marshalling). -/
theorem getAllVoters_spec (t : VoterList) :
    t.GetAllVoters.2 = none ∧
    sliceElems t.GetAllVoters.1 = t.Voters.map Prod.snd ∧
    (t.Voters = [] → t.GetAllVoters.1 = none) := by
  refine ⟨rfl, ?_, ?_⟩
  · simpa [VoterList.GetAllVoters, sliceElems] using foldl_goAppend t.Voters none
  · intro h
    simp [VoterList.GetAllVoters, h]

/-- Witness for C8 at the empty store, discharging the emptiness hypothesis. -/
theorem getAllVoters_spec_witness :
    (VoterList.GetAllVoters ⟨[]⟩).2 = none ∧
    sliceElems (VoterList.GetAllVoters ⟨[]⟩).1 = ([] : List (Int × Voter)).map Prod.snd ∧
    (VoterList.GetAllVoters ⟨[]⟩).1 = none := by
  have h := getAllVoters_spec ⟨[]⟩
  exact ⟨h.1, h.2.1, h.2.2 rfl⟩

end DB
